import Mathlib

/-
Verification development for scripts/refactor-screen.py.

The script reads one file, applies four sequential text substitutions to its
contents, writes the result back, and prints a confirmation line.  All four
substitutions use literal patterns or a single concrete regular expression,
so the whole transformation is embedded here as executable functions over
List Char.  Brace and quote characters inside string literals are written
with hexadecimal escapes.
-/

set_option autoImplicit false
set_option maxRecDepth 40000

namespace RefactorScreen

/-- ASCII fragment of the regex word-character class used by the script
(letters, digits and underscore); all inputs of interest are ASCII. -/
def isWordChar (c : Char) : Bool := c.isAlphanum || c == '_'

/-- Consume the literal pattern from the front of a character list, returning
the remainder on success. -/
def dropLit : List Char → List Char → Option (List Char)
  | [], s => some s
  | _ :: _, [] => none
  | p :: ps, c :: rest => if c = p then dropLit ps rest else none

/-- Does the pattern occur as a contiguous substring of the list. -/
def hasSub (pat : List Char) : List Char → Bool
  | [] => (dropLit pat []).isSome
  | c :: rest => (dropLit pat (c :: rest)).isSome || hasSub pat rest

/-- Fueled scanner implementing Python re.sub with a literal pattern and a
constant replacement: scan left to right, replace each non-overlapping
occurrence, never rescanning replaced text.  The fuel (an upper bound on the
remaining length) only makes the recursion structural; it never runs out when
it starts at the length of the scanned list. -/
def replGo (pat repl : List Char) : Nat → List Char → List Char
  | _, [] => []
  | 0, c :: rest => c :: rest
  | g+1, c :: rest =>
    match dropLit pat (c :: rest) with
    | some r =>
      if pat.isEmpty then c :: replGo pat repl g rest
      else repl ++ replGo pat repl g r
    | none => c :: replGo pat repl g rest

/-- Replace every non-overlapping occurrence of a literal pattern, scanning
left to right (Python re.sub with a literal pattern, and also Python
str.replace). -/
def replaceAll (pat repl s : List Char) : List Char := replGo pat repl s.length s

theorem dropLit_some : ∀ (p s r : List Char), dropLit p s = some r → s = p ++ r
  | [], s, r, h => by simp [dropLit] at h; simp [h]
  | p :: ps, [], r, h => by simp [dropLit] at h
  | p :: ps, c :: rest, r, h => by
      by_cases hc : c = p
      · subst hc
        have := dropLit_some ps rest r (by simpa [dropLit] using h)
        simp [this]
      · simp [dropLit, hc] at h

theorem dropLit_append : ∀ (p s : List Char), dropLit p (p ++ s) = some s
  | [], s => rfl
  | p :: ps, s => by simp [dropLit, dropLit_append ps s]

theorem replGo_nil (pat repl : List Char) : ∀ g : Nat, replGo pat repl g [] = [] := by
  intro g; cases g <;> rfl

theorem replGo_succ_cons (pat repl : List Char) (g : Nat) (c : Char) (rest : List Char) :
    replGo pat repl (g+1) (c :: rest) =
      match dropLit pat (c :: rest) with
      | some r =>
        if pat.isEmpty then c :: replGo pat repl g rest
        else repl ++ replGo pat repl g r
      | none => c :: replGo pat repl g rest := rfl

theorem replGo_fuel (pat repl : List Char) :
    ∀ (g h : Nat) (s : List Char), s.length ≤ g → s.length ≤ h →
      replGo pat repl g s = replGo pat repl h s := by
  intro g
  induction g with
  | zero =>
    intro h s hg _
    have : s = [] := List.length_eq_zero.mp (Nat.le_zero.mp hg)
    subst this
    rw [replGo_nil, replGo_nil]
  | succ g ih =>
    intro h s hg hh
    cases s with
    | nil => rw [replGo_nil, replGo_nil]
    | cons c rest =>
      cases h with
      | zero => exact absurd hh (by simp)
      | succ h =>
        rw [replGo_succ_cons, replGo_succ_cons]
        have hg' : rest.length ≤ g := by simpa using hg
        have hh' : rest.length ≤ h := by simpa using hh
        cases hd : dropLit pat (c :: rest) with
        | none => simp only; rw [ih h rest hg' hh']
        | some r =>
          simp only
          by_cases hemp : pat.isEmpty
          · simp only [hemp, if_pos]
            rw [ih h rest hg' hh']
          · simp only [hemp, if_neg, Bool.false_eq_true, not_false_iff]
            have hsplit := dropLit_some pat (c :: rest) r hd
            have hplen : 1 ≤ pat.length := by
              cases pat with
              | nil => simp [List.isEmpty] at hemp
              | cons q qs => simp
            have hr : r.length ≤ rest.length := by
              have : (c :: rest).length = pat.length + r.length := by
                rw [hsplit, List.length_append]
              simp only [List.length_cons] at this
              omega
            rw [ih h r (le_trans hr hg') (le_trans hr hh')]

theorem replaceAll_nil (pat repl : List Char) : replaceAll pat repl [] = [] := by
  simp [replaceAll, replGo_nil]

theorem replaceAll_cons_match (pat repl : List Char) (c : Char) (rest r : List Char)
    (hpat : pat ≠ []) (hd : dropLit pat (c :: rest) = some r) :
    replaceAll pat repl (c :: rest) = repl ++ replaceAll pat repl r := by
  have hemp : pat.isEmpty = false := by cases pat with
    | nil => exact absurd rfl hpat
    | cons q qs => rfl
  have hsplit := dropLit_some pat (c :: rest) r hd
  have hr : r.length ≤ rest.length := by
    have h1 : (c :: rest).length = pat.length + r.length := by
      rw [hsplit, List.length_append]
    have h2 : 1 ≤ pat.length := by
      cases pat with
      | nil => exact absurd rfl hpat
      | cons q qs => simp
    simp only [List.length_cons] at h1
    omega
  show replGo pat repl (c :: rest).length (c :: rest) = _
  rw [List.length_cons, replGo_succ_cons, hd]
  simp only [hemp, Bool.false_eq_true, if_neg, not_false_iff]
  rw [replGo_fuel pat repl rest.length r.length r hr (le_refl _)]
  rfl

theorem replaceAll_cons_none (pat repl : List Char) (c : Char) (rest : List Char)
    (hd : dropLit pat (c :: rest) = none) :
    replaceAll pat repl (c :: rest) = c :: replaceAll pat repl rest := by
  show replGo pat repl (c :: rest).length (c :: rest) = _
  rw [List.length_cons, replGo_succ_cons, hd]
  rfl

theorem replGo_self (pat : List Char) : ∀ (g : Nat) (s : List Char),
    replGo pat pat g s = s := by
  intro g
  induction g with
  | zero => intro s; cases s <;> rfl
  | succ g ih =>
    intro s
    cases s with
    | nil => rfl
    | cons c rest =>
      rw [replGo_succ_cons]
      cases hd : dropLit pat (c :: rest) with
      | none => simp only; rw [ih rest]
      | some r =>
        simp only
        by_cases hemp : pat.isEmpty
        · simp only [hemp, if_pos]; rw [ih rest]
        · simp only [hemp, Bool.false_eq_true, if_neg, not_false_iff]
          rw [ih r, ← dropLit_some pat (c :: rest) r hd]

/-- Replacing a pattern by itself changes nothing. -/
theorem replaceAll_self (pat s : List Char) : replaceAll pat pat s = s :=
  replGo_self pat s.length s

/-- If the pattern never occurs, literal replacement is the identity. -/
theorem replaceAll_of_not_hasSub (pat repl s : List Char)
    (h : hasSub pat s = false) : replaceAll pat repl s = s := by
  induction s with
  | nil => exact replaceAll_nil pat repl
  | cons c rest ih =>
    rw [hasSub, Bool.or_eq_false_iff] at h
    have hd : dropLit pat (c :: rest) = none := by
      cases hd : dropLit pat (c :: rest) with
      | none => rfl
      | some r => rw [hd] at h; simp at h
    rw [replaceAll_cons_none pat repl c rest hd, ih h.2]

/-- Replacement rewrites the leftmost occurrence of the pattern and then
continues on the remainder: scanning semantics of re.sub on a literal
pattern. -/
theorem replaceAll_first_occ (pat repl : List Char) (hpat : pat ≠ []) :
    ∀ (a b : List Char),
      (∀ i < a.length, (dropLit pat (List.drop i (a ++ pat ++ b))).isSome = false) →
      replaceAll pat repl (a ++ pat ++ b) = a ++ repl ++ replaceAll pat repl b := by
  intro a
  induction a with
  | nil =>
    intro b _
    cases hp : pat with
    | nil => exact absurd hp hpat
    | cons q qs =>
      have hd : dropLit pat (pat ++ b) = some b := dropLit_append pat b
      subst hp
      simp only [List.nil_append, List.cons_append]
      exact replaceAll_cons_match (q :: qs) repl q (qs ++ b) b (by simp)
        (by rw [← List.cons_append]; exact hd)
  | cons c a' ih =>
    intro b h
    have h0 := h 0 (by simp)
    have hd : dropLit pat (c :: (a' ++ pat ++ b)) = none := by
      cases hd : dropLit pat (List.drop 0 ((c :: a') ++ pat ++ b)) with
      | none => simpa using hd
      | some r => rw [hd] at h0; simp at h0
    have step : replaceAll pat repl ((c :: a') ++ pat ++ b)
        = c :: replaceAll pat repl (a' ++ pat ++ b) := by
      simpa using replaceAll_cons_none pat repl c (a' ++ pat ++ b) hd
    rw [step, ih b (fun i hi => by
      have := h (i+1) (by simpa using Nat.succ_lt_succ hi)
      simpa using this)]
    rfl

/-- Pattern of the first re.sub call (source line 16), a literal string. -/
def step1Pat : List Char := ("import \x7b Colors,").data

/-- Replacement of the first re.sub call (source line 17). -/
def step1Repl : List Char :=
  ("import \x7b useTheme \x7d from \x27@/src/contexts/ThemeContext\x27;\nimport \x7b").data

/-- Step 1 of the transformation (source lines 15-19): every occurrence of
the literal import prefix is replaced by the two-line theme-accessor block. -/
def step1 (s : List Char) : List Char := replaceAll step1Pat step1Repl s

/-- Pattern of the second re.sub call (source line 21), a literal string. -/
def constantsPat : List Char := ("from \x27@/src/constants\x27;").data

/-- The lambda of the second re.sub call (source line 22): on the matched
text, Python str.replace removes ", Colors" and then "Colors, ". -/
def step2MatchRepl (m : List Char) : List Char :=
  replaceAll (("Colors, ").data) [] (replaceAll ((", Colors").data) [] m)

/-- Step 2 of the transformation (source lines 20-24).  The pattern is a
literal string, so every matched group equals that literal and the lambda is
always applied to it. -/
def step2 (s : List Char) : List Char :=
  replaceAll constantsPat (step2MatchRepl constantsPat) s

/-- Pattern body of the fourth re.sub call (source line 37): the token
"Colors." guarded on the left by a word boundary. -/
def colorsDot : List Char := ("Colors.").data

/-- Replacement of the fourth re.sub call. -/
def colorsLower : List Char := ("colors.").data

/-- A word boundary sits before "Colors." exactly when the preceding
character (none at the start of the text) is not a word character. -/
def boundaryOk : Option Char → Bool
  | none => true
  | some c => !(isWordChar c)

/-- Fueled scanner for step 4 (source line 37): left-to-right scan tracking
the previous character, replacing every boundary-guarded occurrence of
"Colors." and never rescanning replaced text. -/
def s4go : Nat → Option Char → List Char → List Char
  | _, _, [] => []
  | 0, _, c :: rest => c :: rest
  | g+1, prev, c :: rest =>
    match dropLit colorsDot (c :: rest) with
    | some r =>
      if boundaryOk prev then colorsLower ++ s4go g (some '.') r
      else c :: s4go g (some c) rest
    | none => c :: s4go g (some c) rest

/-- Step 4 scanner with an explicit previous-character state. -/
def step4Aux (prev : Option Char) (s : List Char) : List Char := s4go s.length prev s

/-- Step 4 of the transformation (source line 37). -/
def step4 (s : List Char) : List Char := step4Aux none s

/-- Does a boundary-guarded occurrence of "Colors." appear anywhere in the
text, scanning with the given previous character. -/
def hasBOcc : Option Char → List Char → Bool
  | _, [] => false
  | prev, c :: rest =>
    (boundaryOk prev && (dropLit colorsDot (c :: rest)).isSome) || hasBOcc (some c) rest

theorem s4go_nil : ∀ (g : Nat) (prev : Option Char), s4go g prev [] = [] := by
  intro g prev; cases g <;> rfl

theorem s4go_succ_cons (g : Nat) (prev : Option Char) (c : Char) (rest : List Char) :
    s4go (g+1) prev (c :: rest) =
      match dropLit colorsDot (c :: rest) with
      | some r =>
        if boundaryOk prev then colorsLower ++ s4go g (some '.') r
        else c :: s4go g (some c) rest
      | none => c :: s4go g (some c) rest := rfl

theorem s4go_fuel : ∀ (g h : Nat) (prev : Option Char) (s : List Char),
    s.length ≤ g → s.length ≤ h → s4go g prev s = s4go h prev s := by
  intro g
  induction g with
  | zero =>
    intro h prev s hg _
    have : s = [] := List.length_eq_zero.mp (Nat.le_zero.mp hg)
    subst this
    rw [s4go_nil, s4go_nil]
  | succ g ih =>
    intro h prev s hg hh
    cases s with
    | nil => rw [s4go_nil, s4go_nil]
    | cons c rest =>
      cases h with
      | zero => exact absurd hh (by simp)
      | succ h =>
        rw [s4go_succ_cons, s4go_succ_cons]
        have hg' : rest.length ≤ g := by simpa using hg
        have hh' : rest.length ≤ h := by simpa using hh
        cases hd : dropLit colorsDot (c :: rest) with
        | none => simp only; rw [ih h (some c) rest hg' hh']
        | some r =>
          simp only
          have hsplit := dropLit_some colorsDot (c :: rest) r hd
          have hr : r.length ≤ rest.length := by
            have h1 : (c :: rest).length = colorsDot.length + r.length := by
              rw [hsplit, List.length_append]
            have hcl : colorsDot.length = 7 := rfl
            simp only [List.length_cons, hcl] at h1
            omega
          by_cases hb : boundaryOk prev
          · simp only [hb, if_pos]
            rw [ih h (some '.') r (le_trans hr hg') (le_trans hr hh')]
          · simp only [hb, Bool.false_eq_true, if_neg, not_false_iff]
            rw [ih h (some c) rest hg' hh']

theorem step4Aux_nil (prev : Option Char) : step4Aux prev [] = [] := rfl

theorem step4Aux_cons_match (prev : Option Char) (c : Char) (rest r : List Char)
    (hd : dropLit colorsDot (c :: rest) = some r) (hb : boundaryOk prev = true) :
    step4Aux prev (c :: rest) = colorsLower ++ step4Aux (some '.') r := by
  have hsplit := dropLit_some colorsDot (c :: rest) r hd
  have hr : r.length ≤ rest.length := by
    have h1 : (c :: rest).length = colorsDot.length + r.length := by
      rw [hsplit, List.length_append]
    have hcl : colorsDot.length = 7 := rfl
    simp only [List.length_cons, hcl] at h1
    omega
  show s4go (c :: rest).length prev (c :: rest) = _
  rw [List.length_cons, s4go_succ_cons, hd]
  simp only [hb, if_pos]
  rw [s4go_fuel rest.length r.length (some '.') r hr (le_refl _)]
  rfl

theorem step4Aux_cons_skip (prev : Option Char) (c : Char) (rest : List Char)
    (hd : dropLit colorsDot (c :: rest) = none ∨ boundaryOk prev = false) :
    step4Aux prev (c :: rest) = c :: step4Aux (some c) rest := by
  show s4go (c :: rest).length prev (c :: rest) = _
  rw [List.length_cons, s4go_succ_cons]
  cases hdd : dropLit colorsDot (c :: rest) with
  | none => rfl
  | some r =>
    cases hd with
    | inl h => rw [h] at hdd; cases hdd
    | inr h => simp only [h, Bool.false_eq_true, if_neg, not_false_iff]; rfl

/-- If no boundary-guarded occurrence appears, step 4 is the identity. -/
theorem step4Aux_of_no_occ : ∀ (s : List Char) (prev : Option Char),
    hasBOcc prev s = false → step4Aux prev s = s := by
  intro s
  induction s with
  | nil => intro prev _; rfl
  | cons c rest ih =>
    intro prev h
    rw [hasBOcc, Bool.or_eq_false_iff, Bool.and_eq_false_iff] at h
    have hskip : dropLit colorsDot (c :: rest) = none ∨ boundaryOk prev = false := by
      rcases h.1 with hb | hs
      · exact Or.inr hb
      · cases hd : dropLit colorsDot (c :: rest) with
        | none => exact Or.inl rfl
        | some r => rw [hd] at hs; simp at hs
    rw [step4Aux_cons_skip prev c rest hskip, ih (some c) h.2]

/-- Leading literal of the step-3 regex (source line 28). -/
def exportLit : List Char := ("export default function ").data

/-- Literal between the function name and the body in the step-3 regex. -/
def parenLit : List Char := ("() \x7b").data

/-- The second capture group of the step-3 regex, a literal. -/
def constHook : List Char := ("const \x7b").data

/-- Text inserted by the step-3 substitution between the two groups
(source line 31). -/
def insertHook : List Char := ("const \x7b colors \x7d = useTheme();\n  ").data

/-- The lazy non-brace run of the step-3 regex followed by the literal
"const \x7b": at each position first try the literal, otherwise fail on a
closing brace, otherwise extend the run by one character.  Returns the run
and the text after the literal. -/
def lazyScan : List Char → Option (List Char × List Char)
  | [] => none
  | c :: rest =>
    match dropLit constHook (c :: rest) with
    | some r => some ([], r)
    | none =>
      if c = '\x7d' then none
      else
        match lazyScan rest with
        | none => none
        | some (mid, r) => some (c :: mid, r)

/-- Continuation of the step-3 regex after its export literal: a non-empty
maximal word-character run (the greedy word-plus, which cannot backtrack
into the following parenthesis), the literal "() \x7b", then the lazy scan.
Returns the first capture group and the text after "const \x7b". -/
def matchAfterExport (t : List Char) : Option (List Char × List Char) :=
  if t.takeWhile isWordChar = [] then none
  else
    match dropLit parenLit (t.dropWhile isWordChar) with
    | none => none
    | some u =>
      match lazyScan u with
      | none => none
      | some (mid, r) =>
        some (exportLit ++ t.takeWhile isWordChar ++ parenLit ++ mid, r)

/-- Match the step-3 regex at the start of the text. -/
def matchComp (s : List Char) : Option (List Char × List Char) :=
  match dropLit exportLit s with
  | none => none
  | some t => matchAfterExport t

/-- Step 3 of the transformation (source lines 28-34): substitute the
leftmost match of the component pattern, at most once, leaving the text
unchanged when there is no match. -/
def step3 : List Char → List Char
  | [] => []
  | c :: rest =>
    match matchComp (c :: rest) with
    | some (g1, r) => g1 ++ insertHook ++ constHook ++ r
    | none => c :: step3 rest

/-- Does the component pattern match starting at any position of the text. -/
def hasCompMatch : List Char → Bool
  | [] => false
  | c :: rest => (matchComp (c :: rest)).isSome || hasCompMatch rest

theorem step3_cons (c : Char) (rest : List Char) :
    step3 (c :: rest) =
      match matchComp (c :: rest) with
      | some (g1, r) => g1 ++ insertHook ++ constHook ++ r
      | none => c :: step3 rest := rfl

/-- When the component pattern matches nowhere, step 3 is the identity. -/
theorem step3_of_no_match : ∀ s : List Char, hasCompMatch s = false → step3 s = s := by
  intro s
  induction s with
  | nil => intro _; rfl
  | cons c rest ih =>
    intro h
    rw [hasCompMatch, Bool.or_eq_false_iff] at h
    have hm : matchComp (c :: rest) = none := by
      cases hm : matchComp (c :: rest) with
      | none => rfl
      | some x => rw [hm] at h; simp at h
    rw [step3_cons, hm, ih h.2]

/-- Step 3 rewrites at the leftmost position where the component pattern
matches and copies everything after the match verbatim. -/
theorem step3_at : ∀ (a b g1 r : List Char),
    (∀ i < a.length, matchComp (List.drop i (a ++ b)) = none) →
    matchComp b = some (g1, r) →
    step3 (a ++ b) = a ++ (g1 ++ insertHook ++ constHook ++ r) := by
  intro a
  induction a with
  | nil =>
    intro b g1 r _ hm
    cases b with
    | nil => cases hm
    | cons c rest => simp only [List.nil_append]; rw [step3_cons, hm]
  | cons c a' ih =>
    intro b g1 r h hm
    have h0 : matchComp (c :: (a' ++ b)) = none := by
      have := h 0 (by simp)
      simpa using this
    rw [List.cons_append, step3_cons, h0]
    simp only
    rw [ih b g1 r (fun i hi => by
      have := h (i+1) (by simpa using Nat.succ_lt_succ hi)
      simpa using this) hm]
    rfl

/-- The in-memory content transformation of refactor_screen (source lines
13-37): the four substitutions applied by sequential reassignment of the
content variable. -/
def refactorContent (s : List Char) : List Char :=
  let c1 := step1 s
  let c2 := step2 c1
  let c3 := step3 c2
  step4 c3

/-- Stated from the spec's words: the sequential composition of the four
transformation steps, each applied to the result of the previous one over
the whole text. -/
def composedSteps (s : List Char) : List Char := step4 (step3 (step2 (step1 s)))

/-- Usage line printed on a missing argument (source line 47). -/
def usageMsg : String := "Usage: python refactor-screen.py <filepath>"

/-- Confirmation line printed after a successful rewrite (source line 43). -/
def successMsg (fp : String) : String := "✅ Refactored: " ++ fp

/-- Observable effects of one invocation of the script: lines printed to
standard output, the process exit code, the paths opened, the content
written back, and whether an I/O error escaped. -/
structure Effect where
  stdout : List String
  exitCode : Nat
  opened : List String
  written : Option (List Char)
  ioError : Bool
  deriving Repr, DecidableEq

/-- The script's entry point (source lines 45-50) over an explicit argument
vector and a read-only view of the file system.  With fewer than two
arguments it prints the usage line and exits with status 1 without touching
any file; otherwise it opens the named file, and a missing file surfaces as
an uncaught I/O error (nonzero exit, no success line); on success it writes
the transformed content back and prints the confirmation line. -/
def mainModel (argv : List String) (fs : String → Option (List Char)) : Effect :=
  match argv with
  | _ :: fp :: _ =>
    (match fs fp with
     | none =>
       { stdout := [], exitCode := 1, opened := [fp], written := none, ioError := true }
     | some content =>
       { stdout := [successMsg fp], exitCode := 0, opened := [fp],
         written := some (refactorContent content), ioError := false })
  | _ => { stdout := [usageMsg], exitCode := 1, opened := [], written := none, ioError := false }

/-- Head of the claimed hook-insertion snippet: the exported component
declaration followed by a newline and a two-space indent. -/
def snippetHdr : List Char := ("export default function Screen() \x7b\n  ").data

/-- Tail of the navigation destructuring line after "const \x7b". -/
def navTail : List Char := (" navigation \x7d = useNavigation();").data

/-- The snippet named by the hook-insertion claim. -/
def snippet : List Char := snippetHdr ++ constHook ++ navTail

/-- The snippet with the theme-accessor line inserted before the navigation
destructuring, indented by two spaces. -/
def snippetOut : List Char := snippetHdr ++ insertHook ++ constHook ++ navTail

/-- The component pattern matches at the start of the snippet, for any
continuation, capturing the header and stopping before the navigation
destructuring. -/
theorem matchComp_snippet (t : List Char) :
    matchComp (snippet ++ t) = some (snippetHdr, navTail ++ t) := rfl

theorem matchComp_eq (s : List Char) :
    matchComp s =
      match dropLit exportLit s with
      | none => none
      | some t => matchAfterExport t := rfl

/-- A pattern free of closing braces that fits before an explicit closing
brace already fits inside the part preceding that brace. -/
theorem dropLit_through_brace : ∀ (pat m r : List Char), '\x7d' ∉ pat →
    (dropLit pat (m ++ '\x7d' :: r)).isSome = true → (dropLit pat m).isSome = true := by
  intro pat
  induction pat with
  | nil => intro m r _ _; simp [dropLit]
  | cons p ps ih =>
    intro m r hp h
    cases m with
    | nil =>
      simp only [List.nil_append, dropLit] at h
      by_cases hc : '\x7d' = p
      · exact absurd (hc ▸ List.mem_cons_self p ps) hp
      · rw [if_neg hc] at h; simp at h
    | cons x m' =>
      simp only [List.cons_append, dropLit] at h ⊢
      by_cases hc : x = p
      · rw [if_pos hc] at h ⊢
        exact ih m' r (fun hmem => hp (List.mem_cons_of_mem p hmem)) h
      · rw [if_neg hc] at h; simp at h

theorem lazyScan_cons (c : Char) (rest : List Char) :
    lazyScan (c :: rest) =
      match dropLit constHook (c :: rest) with
      | some r => some ([], r)
      | none =>
        if c = '\x7d' then none
        else
          match lazyScan rest with
          | none => none
          | some (mid, r) => some (c :: mid, r) := rfl

/-- A closing brace with no "const \x7b" before it makes the lazy scan
fail, whatever follows the brace. -/
theorem lazyScan_blocked : ∀ (m r : List Char), hasSub constHook m = false →
    lazyScan (m ++ '\x7d' :: r) = none := by
  intro m
  induction m with
  | nil => intro r _; rfl
  | cons x m' ih =>
    intro r h
    rw [hasSub, Bool.or_eq_false_iff] at h
    rw [List.cons_append, lazyScan_cons]
    cases hd : dropLit constHook (x :: (m' ++ '\x7d' :: r)) with
    | some u =>
      exfalso
      have hb : ('\x7d' : Char) ∉ constHook := by decide
      have : (dropLit constHook ((x :: m') ++ '\x7d' :: r)).isSome = true := by
        rw [List.cons_append, hd]; rfl
      have := dropLit_through_brace constHook (x :: m') r hb this
      rw [h.1] at this; cases this
    | none =>
      simp only
      by_cases hx : x = '\x7d'
      · rw [if_pos hx]
      · rw [if_neg hx, ih r h.2]

/-- A run of word characters before a parenthesis is exactly what the
greedy word-character scan takes. -/
theorem takeWhile_word_paren : ∀ (w t : List Char), (∀ c ∈ w, isWordChar c = true) →
    (w ++ '(' :: t).takeWhile isWordChar = w
      ∧ (w ++ '(' :: t).dropWhile isWordChar = '(' :: t := by
  intro w
  induction w with
  | nil =>
    intro t _
    have h : isWordChar '(' = false := rfl
    constructor
    · simp [List.takeWhile, h]
    · simp [List.dropWhile, h]
  | cons c w' ih =>
    intro t hw
    have hc : isWordChar c = true := hw c (List.mem_cons_self c w')
    have ih' := ih t (fun d hd => hw d (List.mem_cons_of_mem c hd))
    constructor
    · rw [List.cons_append, List.takeWhile_cons, if_pos hc, ih'.1]
    · rw [List.cons_append, List.dropWhile_cons, if_pos hc, ih'.2]

/-- The component pattern cannot match at a declaration whose body reaches a
closing brace before any "const \x7b": the nested-block limitation of the
step-3 regex. -/
theorem matchComp_blocked (w m r : List Char)
    (hw0 : w ≠ []) (hw : ∀ c ∈ w, isWordChar c = true)
    (hm : hasSub constHook m = false) :
    matchComp (exportLit ++ (w ++ (parenLit ++ (m ++ '\x7d' :: r)))) = none := by
  rw [matchComp_eq, dropLit_append]
  simp only
  have hshape : w ++ (parenLit ++ (m ++ '\x7d' :: r))
      = w ++ '(' :: ((")" ++ " " ++ "\x7b").data ++ (m ++ '\x7d' :: r)) := rfl
  have htw := takeWhile_word_paren w ((")" ++ " " ++ "\x7b").data ++ (m ++ '\x7d' :: r)) hw
  rw [matchAfterExport, hshape, htw.1, htw.2, if_neg hw0]
  have hpar : ('(' : Char) :: ((")" ++ " " ++ "\x7b").data ++ (m ++ '\x7d' :: r))
      = parenLit ++ (m ++ '\x7d' :: r) := rfl
  rw [hpar, dropLit_append]
  simp only
  rw [lazyScan_blocked m r hm]

/-- A successful component match starts with the export literal. -/
theorem matchComp_some_starts (s : List Char) (x : List Char × List Char)
    (h : matchComp s = some x) : (dropLit exportLit s).isSome = true := by
  rw [matchComp_eq] at h
  cases hd : dropLit exportLit s with
  | none => rw [hd] at h; cases h
  | some t => rfl

/-- No position matches the component pattern, so the pattern matches
nowhere in the text. -/
theorem hasCompMatch_false_of : ∀ s : List Char,
    (∀ i : Nat, matchComp (List.drop i s) = none) → hasCompMatch s = false := by
  intro s
  induction s with
  | nil => intro _; rfl
  | cons c rest ih =>
    intro h
    rw [hasCompMatch, Bool.or_eq_false_iff]
    constructor
    · have := h 0
      simp only [List.drop_zero] at this
      rw [this]; rfl
    · exact ih (fun i => by
        have := h (i+1)
        rwa [List.drop_succ_cons] at this)

/-- A constants import whose list holds Colors in the ", Colors" surface
form: the input showing that step 2 removes nothing. -/
def c1Input : List Char :=
  ("import \x7b CommonStyles, Colors \x7d from \x27@/src/constants\x27;\n").data

/-- The spec's step-1 example input. -/
def c2Input : List Char := ("import \x7b Colors, useState \x7d from \x27react\x27;").data

/-- The spec's step-1 example output: the theme-accessor import inserted and
useState intact. -/
def c2Output : List Char :=
  ("import \x7b useTheme \x7d from \x27@/src/contexts/ThemeContext\x27;\nimport \x7b useState \x7d from \x27react\x27;").data

/-- Two exported components, the claimed snippet in the second: the leftmost
match of the component pattern is in the first one. -/
def c3CexIn : List Char :=
  ("export default function A() \x7b\n  const \x7b x \x7d = useX();\n\x7d\nexport default function Screen() \x7b\n  const \x7b navigation \x7d = useNavigation();\n\x7d\n").data

/-- What step 3 actually produces on c3CexIn: the hook line lands in the
first component, not before the navigation destructuring. -/
def c3CexOut : List Char :=
  ("export default function A() \x7b\n  const \x7b colors \x7d = useTheme();\n  const \x7b x \x7d = useX();\n\x7d\nexport default function Screen() \x7b\n  const \x7b navigation \x7d = useNavigation();\n\x7d\n").data

/-- The spec's step-4 example: three member accesses to rename, plus two
longer identifiers that must stay untouched. -/
def c4Input : List Char :=
  ("const a = Colors.primary; const b = Colors.background; const c = Colors.border; const d = ColorsPalette.foo; const e = MyColors.bar;").data

/-- The expected step-4 result on c4Input. -/
def c4Output : List Char :=
  ("const a = colors.primary; const b = colors.background; const c = colors.border; const d = ColorsPalette.foo; const e = MyColors.bar;").data

/-- Concatenate n copies of a block of text. -/
def repConcat : Nat → List Char → List Char
  | 0, _ => []
  | n+1, u => u ++ repConcat n u

/-- A screen file exercising all four steps, used as written-back-content
witness data. -/
def c5Content : List Char :=
  ("import \x7b Colors, View \x7d from \x27react-native\x27;\nexport default function Screen() \x7b\n  const \x7b navigation \x7d = useNavigation();\n  return Colors.primary;\n\x7d\n").data

/-- A file system holding c5Content at every path. -/
def fsC : String → Option (List Char) := fun _ => some c5Content

/-- A file system with no files. -/
def fsEmpty : String → Option (List Char) := fun _ => none

/-- A file system holding one small file at every path. -/
def fsA : String → Option (List Char) := fun _ => some (("Colors.x").data)

/-- A file system holding the same small file at one path only. -/
def fsB : String → Option (List Char) :=
  fun fp => if fp = "a.tsx" then some (("Colors.x").data) else none

/-- Text before the declaration in the nested-block witness. -/
def c8a : List Char := ("// header\n").data

/-- Component name in the nested-block witness. -/
def c8w : List Char := ("Screen").data

/-- Body text before the first closing brace in the nested-block witness: a
nested conditional opens before any destructuring. -/
def c8m : List Char := ("\n  if (x) \x7b y(); ").data

/-- Text after the first closing brace in the nested-block witness,
including the destructuring the pattern can no longer reach. -/
def c8r : List Char := ("\n  const \x7b navigation \x7d = useNavigation();\n").data

/-- A file none of the four patterns touches. -/
def c10Input : List Char := ("function helper() \x7b return 1; \x7d\n").data

/-- Step 2 is the identity on every input: its pattern is the literal
constants-import path, so each matched group is exactly that literal, and
the lambda's two removals find nothing to remove in it. -/
theorem step2_id (s : List Char) : step2 s = s := by
  have h : step2MatchRepl constantsPat = constantsPat := rfl
  show replaceAll constantsPat (step2MatchRepl constantsPat) s = s
  rw [h]
  exact replaceAll_self constantsPat s

theorem repConcat_succ (n : Nat) (u : List Char) :
    repConcat (n+1) u = u ++ repConcat n u := rfl

/-- Step 4 rewrites one guarded block and continues with the block's last
character as previous character. -/
theorem step4Aux_unit (prev : Option Char) (t : List Char) :
    step4Aux prev ((" Colors.x").data ++ t) = (" colors.x").data ++ step4Aux (some 'x') t := by
  have hs1 : (" Colors.x").data ++ t = ' ' :: (("Colors.x").data ++ t) := rfl
  rw [hs1, step4Aux_cons_skip prev ' ' (("Colors.x").data ++ t) (Or.inl rfl)]
  have hs2 : ("Colors.x").data ++ t = 'C' :: (("olors.x").data ++ t) := rfl
  rw [hs2, step4Aux_cons_match (some ' ') 'C' (("olors.x").data ++ t) ('x' :: t) rfl rfl]
  rw [step4Aux_cons_skip (some '.') 'x' t (Or.inl rfl)]
  rfl

/-- Step 4 rewrites every one of n guarded occurrences, for any n. -/
theorem c4_general : ∀ (n : Nat) (prev : Option Char),
    step4Aux prev (repConcat n ((" Colors.x").data)) = repConcat n ((" colors.x").data) := by
  intro n
  induction n with
  | zero => intro prev; rfl
  | succ n ih =>
    intro prev
    rw [repConcat_succ, repConcat_succ,
      step4Aux_unit prev (repConcat n ((" Colors.x").data)), ih (some 'x')]

/-- Claim C1 (code_bug record): the import-list cleanup step never removes
anything.  Its pattern matches only the constants-path literal, which holds
neither ", Colors" nor "Colors, ", so the lambda returns the match
unchanged: step 2 is the identity on every input, and on a file whose
constants import holds ", Colors" the whole transformation leaves the
token in place. -/
theorem step2_never_removes_colors :
    (∀ s : List Char, step2 s = s)
    ∧ hasSub ((", Colors").data) c1Input = true
    ∧ hasSub constantsPat c1Input = true
    ∧ refactorContent c1Input = c1Input :=
  ⟨step2_id, by decide, by decide, by decide⟩

/-- Claim C2: step 1 replaces each occurrence of the literal
"import \x7b Colors," (leftmost first, continuing on the remainder) with
the two-line theme-accessor block, and on the spec's example the
theme-accessor import appears while useState stays intact. -/
theorem step1_import_substitution :
    (∀ a b : List Char,
        (∀ i < a.length,
          (dropLit step1Pat (List.drop i (a ++ step1Pat ++ b))).isSome = false) →
        step1 (a ++ step1Pat ++ b) = a ++ step1Repl ++ step1 b)
    ∧ step1 c2Input = c2Output := by
  constructor
  · intro a b h
    exact replaceAll_first_occ step1Pat step1Repl (by decide) a b h
  · decide

theorem step1_import_substitution_witness :
    step1 ((("// app\n").data) ++ step1Pat ++ ((" useState \x7d from \x27react\x27;").data))
      = (("// app\n").data) ++ step1Repl ++ step1 ((" useState \x7d from \x27react\x27;").data) :=
  step1_import_substitution.1 (("// app\n").data)
    ((" useState \x7d from \x27react\x27;").data) (by decide)

/-- Claim C3 (amended): when the component pattern matches at no position
before the snippet, step 3 inserts the two-space-indented theme-accessor
line immediately before the navigation destructuring; the substitution
happens at most once by construction, and with no match anywhere the text
is unchanged. -/
theorem hook_insertion_at_snippet :
    (∀ a b : List Char,
        (∀ i < a.length, matchComp (List.drop i (a ++ snippet ++ b)) = none) →
        step3 (a ++ snippet ++ b) = a ++ snippetOut ++ b)
    ∧ ∀ s : List Char, hasCompMatch s = false → step3 s = s := by
  constructor
  · intro a b h
    have h' : ∀ i < a.length, matchComp (List.drop i (a ++ (snippet ++ b))) = none := by
      intro i hi
      have hh := h i hi
      rwa [List.append_assoc] at hh
    have hst := step3_at a (snippet ++ b) snippetHdr (navTail ++ b) h' (matchComp_snippet b)
    calc step3 (a ++ snippet ++ b) = step3 (a ++ (snippet ++ b)) := by
          rw [List.append_assoc]
      _ = a ++ (snippetHdr ++ insertHook ++ constHook ++ (navTail ++ b)) := hst
      _ = a ++ snippetOut ++ b := by simp [snippetOut, List.append_assoc]
  · exact step3_of_no_match

theorem hook_insertion_at_snippet_witness :
    step3 ((("let x = 1;\n").data) ++ snippet ++ (("\n\x7d\n").data))
      = (("let x = 1;\n").data) ++ snippetOut ++ (("\n\x7d\n").data) :=
  hook_insertion_at_snippet.1 (("let x = 1;\n").data) (("\n\x7d\n").data) (by decide)

/-- Claim C3 counterexample: a file that contains the claimed snippet but
where an earlier component matches first; the hook line is inserted into
the first component and never lands before the navigation destructuring. -/
theorem hook_insertion_not_before_navigation :
    step3 c3CexIn = c3CexOut
    ∧ hasSub snippet c3CexIn = true
    ∧ hasSub (insertHook ++ constHook ++ navTail) (step3 c3CexIn) = false :=
  ⟨by decide, by decide, by decide⟩

/-- Claim C4: step 4 rewrites every boundary-guarded occurrence of
"Colors." with no limit on count, and on the spec's example the three
member accesses are renamed while ColorsPalette.foo and MyColors.bar stay
untouched. -/
theorem reference_substitution :
    (∀ n : Nat, step4 (repConcat n ((" Colors.x").data)) = repConcat n ((" colors.x").data))
    ∧ step4 c4Input = c4Output :=
  ⟨fun n => c4_general n none, by decide⟩

/-- Claim C5: the content written back is the sequential composition of the
four steps, each applied to the previous step's output. -/
theorem pipeline_is_sequential_composition :
    (∀ s : List Char, refactorContent s = composedSteps s)
    ∧ ∀ (prog fp : String) (rest : List String) (fs : String → Option (List Char))
        (c : List Char), fs fp = some c →
          (mainModel (prog :: fp :: rest) fs).written = some (composedSteps c) := by
  constructor
  · intro s; rfl
  · intro prog fp rest fs c h
    have hm : mainModel (prog :: fp :: rest) fs =
        { stdout := [successMsg fp], exitCode := 0, opened := [fp],
          written := some (refactorContent c), ioError := false } := by
      simp only [mainModel, h]
    rw [hm]
    rfl

theorem pipeline_is_sequential_composition_witness :
    (mainModel (("python") :: ("screen.tsx") :: []) fsC).written
      = some (composedSteps c5Content) :=
  pipeline_is_sequential_composition.2 ("python") ("screen.tsx") [] fsC c5Content rfl

/-- Claim C6: with no path argument the script prints the usage line to
standard output, exits with status 1, opens no file and writes nothing. -/
theorem usage_error_on_missing_arg (prog : String) (fs : String → Option (List Char)) :
    mainModel [prog] fs =
      { stdout := [usageMsg], exitCode := 1, opened := [], written := none,
        ioError := false } := rfl

/-- Claim C7: on a missing file the invocation surfaces an I/O error,
prints nothing to standard output (in particular no success line) and
writes nothing. -/
theorem io_error_on_missing_file (prog fp : String) (rest : List String)
    (fs : String → Option (List Char)) (h : fs fp = none) :
    (mainModel (prog :: fp :: rest) fs).stdout = []
      ∧ (mainModel (prog :: fp :: rest) fs).ioError = true
      ∧ (mainModel (prog :: fp :: rest) fs).written = none := by
  simp [mainModel, h]

theorem io_error_on_missing_file_witness :
    (mainModel (("python") :: ("missing.tsx") :: []) fsEmpty).stdout = []
      ∧ (mainModel (("python") :: ("missing.tsx") :: []) fsEmpty).ioError = true
      ∧ (mainModel (("python") :: ("missing.tsx") :: []) fsEmpty).written = none :=
  io_error_on_missing_file ("python") ("missing.tsx") [] fsEmpty rfl

/-- Claim C8: when the only export-literal occurrence heads a declaration
whose body reaches a closing brace before any "const \x7b", the component
pattern matches nowhere, no hook line is inserted and step 3 leaves the
whole text unchanged. -/
theorem nested_block_blocks_insertion (a w m r : List Char)
    (hw0 : w ≠ []) (hw : ∀ c ∈ w, isWordChar c = true)
    (hm : hasSub constHook m = false)
    (honce : ∀ i < (a ++ exportLit ++ w ++ parenLit ++ m ++ '\x7d' :: r).length,
        (dropLit exportLit
          (List.drop i (a ++ exportLit ++ w ++ parenLit ++ m ++ '\x7d' :: r))).isSome = true →
        i = a.length) :
    step3 (a ++ exportLit ++ w ++ parenLit ++ m ++ '\x7d' :: r)
      = a ++ exportLit ++ w ++ parenLit ++ m ++ '\x7d' :: r := by
  apply step3_of_no_match
  apply hasCompMatch_false_of
  intro i
  cases hmc : matchComp (List.drop i (a ++ exportLit ++ w ++ parenLit ++ m ++ '\x7d' :: r)) with
  | none => rfl
  | some x =>
    exfalso
    have hds := matchComp_some_starts _ x hmc
    have hi : i < (a ++ exportLit ++ w ++ parenLit ++ m ++ '\x7d' :: r).length := by
      by_contra hge
      have hnil : List.drop i (a ++ exportLit ++ w ++ parenLit ++ m ++ '\x7d' :: r) = [] :=
        List.drop_eq_nil_of_le (le_of_not_lt hge)
      rw [hnil] at hds
      exact absurd hds (by decide)
    have hieq := honce i hi hds
    subst hieq
    have hassoc : a ++ exportLit ++ w ++ parenLit ++ m ++ '\x7d' :: r
        = a ++ (exportLit ++ (w ++ (parenLit ++ (m ++ '\x7d' :: r)))) := by
      simp [List.append_assoc]
    rw [hassoc, List.drop_left] at hmc
    rw [matchComp_blocked w m r hw0 hw hm] at hmc
    cases hmc

theorem nested_block_blocks_insertion_witness :
    step3 (c8a ++ exportLit ++ c8w ++ parenLit ++ c8m ++ '\x7d' :: c8r)
      = c8a ++ exportLit ++ c8w ++ parenLit ++ c8m ++ '\x7d' :: c8r :=
  nested_block_blocks_insertion c8a c8w c8m c8r (by decide) (by decide) (by decide)
    (by decide)

/-- Claim C9: the invocation's observable effect is a function of the file
path and that path's content alone; two invocations agreeing on them agree
on the written content and on the printed line. -/
theorem deterministic_transformation (p1 p2 fp : String) (r1 r2 : List String)
    (fs1 fs2 : String → Option (List Char)) (h : fs1 fp = fs2 fp) :
    mainModel (p1 :: fp :: r1) fs1 = mainModel (p2 :: fp :: r2) fs2 := by
  simp only [mainModel]
  rw [h]

theorem deterministic_transformation_witness :
    mainModel (("python") :: ("a.tsx") :: []) fsA
      = mainModel (("run") :: ("a.tsx") :: [("extra")]) fsB :=
  deterministic_transformation ("python") ("run") ("a.tsx") [] [("extra")] fsA fsB
    (by decide)

/-- Claim C10: on a file that none of the four patterns touches, the
content written back equals the content read, though the file is still
rewritten. -/
theorem identity_on_quiescent_input (s : List Char)
    (h1 : hasSub step1Pat s = false)
    (_h2 : hasSub constantsPat s = false)
    (h3 : hasCompMatch s = false)
    (h4 : hasBOcc none s = false) :
    refactorContent s = s
      ∧ ∀ (prog fp : String) (rest : List String) (fs : String → Option (List Char)),
          fs fp = some s → (mainModel (prog :: fp :: rest) fs).written = some s := by
  have e1 : step1 s = s := replaceAll_of_not_hasSub step1Pat step1Repl s h1
  have e3 : step3 s = s := step3_of_no_match s h3
  have e4 : step4 s = s := step4Aux_of_no_occ s none h4
  have emain : refactorContent s = s := by
    show step4 (step3 (step2 (step1 s))) = s
    rw [e1, step2_id s, e3]
    exact e4
  refine ⟨emain, ?_⟩
  intro prog fp rest fs h
  have hm : mainModel (prog :: fp :: rest) fs =
      { stdout := [successMsg fp], exitCode := 0, opened := [fp],
        written := some (refactorContent s), ioError := false } := by
    simp only [mainModel, h]
  rw [hm, emain]

theorem identity_on_quiescent_input_witness :
    refactorContent c10Input = c10Input :=
  (identity_on_quiescent_input c10Input (by decide) (by decide) (by decide) (by decide)).1

end RefactorScreen
